import Mathlib

/-!
Verification of the `tiny-cuda-nn` network abstraction header
(`include/tiny-cuda-nn/network.h`) via a shallow embedding in Lean 4.

The header declares:
  * `void cutlass_free_workspace(cudaStream_t stream);`
  * `enum class WeightUsage { Inference, Forward, Backward };`
  * `template <typename T> class Network : public DifferentiableObject<T, T>`
    with a pure virtual
    `inference_mixed_precision(stream, const GPUMatrix<T, ColumnMajor>& input,
       GPUMatrix<T, ColumnMajor>& output, MatrixLayout output_layout = ColumnMajor)`
  * `template <typename T> Network<T>* create_network(json network);`

Types referenced by the header (`MatrixLayout`, `GPUMatrix`,
`DifferentiableObject`, `cudaStream_t`, `json`) and the implementations of
`cutlass_free_workspace`, `inference_mixed_precision` (pure virtual) and
`create_network` live outside the given source tree; those parts are modelled
from the specification, as marked on each definition.
-/

namespace TcnnSpec

/-- Modelled from the spec: `MatrixLayout` is defined in `common.h`, which is
not in the source tree.  The spec describes it as the closed set
{RowMajor, ColumnMajor} describing how a 2-D buffer's elements map to
linear memory. -/
inductive MatrixLayout where
  | RowMajor : MatrixLayout
  | ColumnMajor : MatrixLayout
deriving DecidableEq

/-- Modelled from the spec: the linear-memory position of logical element
`(i, j)` of a `rows × cols` matrix under a given layout (row-major:
rows are contiguous; column-major: columns are contiguous). -/
def MatrixLayout.index : MatrixLayout → Nat → Nat → Nat → Nat → Nat
  | .RowMajor, _, cols, i, j => i * cols + j
  | .ColumnMajor, rows, _, i, j => j * rows + i

/-- Modelled from the spec: the logical coordinates `(i, j)` stored at linear
position `k` of a `rows × cols` matrix under a given layout (the inverse of
`MatrixLayout.index` on the in-range positions). -/
def MatrixLayout.coords : MatrixLayout → Nat → Nat → Nat → Nat × Nat
  | .RowMajor, _, cols, k => (k / cols, k % cols)
  | .ColumnMajor, rows, _, k => (k % rows, k / rows)

/-- Modelled from the spec: `GPUMatrix<T, L>` (storage class external to this
core) is a 2-D numeric buffer of element type `T` whose compile-time layout
tag is `L`; we model it as declared dimensions plus linear memory. -/
structure GPUMatrix (T : Type) (L : MatrixLayout) where
  rows : Nat
  cols : Nat
  data : Nat → T

/-- The compile-time layout tag of a `GPUMatrix T L` value: the type-level
parameter `L` of its static type. -/
def GPUMatrix.layoutTag {T : Type} {L : MatrixLayout} (_ : GPUMatrix T L) : MatrixLayout := L

/-- Direct embedding of `enum class WeightUsage` from `network.h`,
lines 41-45: exactly the three declared enumerators. -/
inductive WeightUsage where
  | Inference : WeightUsage
  | Forward : WeightUsage
  | Backward : WeightUsage
deriving DecidableEq

/-- Modelled from the spec: `DifferentiableObject<COMPUTE_T, PARAMS_T>`
(`object.h`, not in the source tree) supplies parameter storage and gradient
accumulation; parameters and gradients have element type `PARAMS_T`. -/
structure DifferentiableObject (COMPUTE_T PARAMS_T : Type) where
  params : List PARAMS_T
  grads : List PARAMS_T

/-- First template argument of the base class in
`class Network : public DifferentiableObject<T, T>` (`network.h`, line 48):
the compute element type of `Network<T>`. -/
def networkComputeT (T : Type) : Type := T

/-- Second template argument of the base class in
`class Network : public DifferentiableObject<T, T>` (`network.h`, line 48):
the parameter/gradient element type of `Network<T>`. -/
def networkParamsT (T : Type) : Type := T

/-- The class `Network<T>` from `network.h`, lines 47-53: derives from
`DifferentiableObject<T, T>` and declares no data members of its own.  The
architecture-description fields (`n_input_dims`, `n_output_dims`, the
evaluation map and per-call scratch consumption) are modelled from the spec,
standing in for the state a concrete implementation supplies behind the pure
virtual interface. -/
structure Network (T : Type) extends DifferentiableObject (networkComputeT T) (networkParamsT T) where
  n_input_dims : Nat
  n_output_dims : Nat
  scratchPerCall : Nat
  eval : (Nat → T) → Nat → T

/-- Modelled from the spec: the externally observable state a call to the
abstraction touches — the network instance (with its inherited
parameter/gradient storage), the process-wide per-stream scratch pool, and
the caller-owned input/output buffers.  The buffer parameters of
`inference_mixed_precision` have static type `GPUMatrix<T, ColumnMajor>`
(`network.h`, line 52). -/
structure InferenceState (T : Type) where
  net : Network T
  scratch : Nat → Nat
  inputBuf : GPUMatrix T MatrixLayout.ColumnMajor
  outputBuf : GPUMatrix T MatrixLayout.ColumnMajor

/-- A single store into linear buffer memory: position `k` receives `v`. -/
def updateBuf {T : Type} (buf : Nat → T) (k : Nat) (v : T) : Nat → T :=
  fun x => if x = k then v else buf x

/-- The list of stores performed when a `rows × cols` result with logical
values `vals i j` is written out under layout `L`: one store per logical
element, at that element's linear position. -/
def writeList {T : Type} (L : MatrixLayout) (rows cols : Nat) (vals : Nat → Nat → T) :
    List (Nat × T) :=
  (List.range rows).flatMap fun i => (List.range cols).map fun j => (L.index rows cols i j, vals i j)

/-- Performing all the stores of `writeList` on a pre-existing buffer. -/
def storeAll {T : Type} (L : MatrixLayout) (rows cols : Nat) (vals : Nat → Nat → T)
    (old : Nat → T) : Nat → T :=
  (writeList L rows cols vals).foldl (fun buf kv => updateBuf buf kv.1 kv.2) old

/-- Modelled from the spec: `inference_mixed_precision` is pure virtual in
`network.h` (line 52) and no concrete implementation is in the source tree.
Per spec section 4.1 it performs a forward evaluation, writing results into
`output` using the requested layout (every logical output element `(i, j)` is
the network's evaluation of input column `j` at output row `i`), consumes
scratch memory on the given stream, and mutates nothing else. -/
def inference_mixed_precision {T : Type} (s : InferenceState T) (stream : Nat)
    (output_layout : MatrixLayout) : InferenceState T :=
  { s with
    outputBuf := { s.outputBuf with
      data := storeAll output_layout s.outputBuf.rows s.outputBuf.cols
        (fun i j => s.net.eval
          (fun r => s.inputBuf.data
            (MatrixLayout.index .ColumnMajor s.inputBuf.rows s.inputBuf.cols r j)) i)
        s.outputBuf.data }
    scratch := fun str =>
      if str = stream then s.scratch str + s.net.scratchPerCall else s.scratch str }

/-- The default value `MatrixLayout::ColumnMajor` of the `output_layout`
parameter in the declaration of `inference_mixed_precision`
(`network.h`, line 52). -/
def inference_default_output_layout : MatrixLayout := MatrixLayout.ColumnMajor

/-- A call to `inference_mixed_precision` in which the caller omits the
`output_layout` argument: C++ substitutes the declared default. -/
def inference_mixed_precision_defaulted {T : Type} (s : InferenceState T) (stream : Nat) :
    InferenceState T :=
  inference_mixed_precision s stream inference_default_output_layout

/-- Modelled from the spec: the implementation of `cutlass_free_workspace`
(declared `network.h`, line 39) is not in the source tree.  Per spec
section 4.3 it frees all scratch allocations associated with the given
stream in the process-wide pool and touches nothing else. -/
def cutlass_free_workspace (pool : Nat → Nat) (stream : Nat) : Nat → Nat :=
  fun str => if str = stream then 0 else pool str

/-- Modelled from the spec: the `json` configuration-document type consumed by
`create_network` (external dependency, not in the source tree): a nested
mapping of string keys to strings, numbers, booleans, arrays or nested
mappings. -/
inductive JsonValue where
  | str : String → JsonValue
  | num : Int → JsonValue
  | boolean : Bool → JsonValue
  | obj : List (String × JsonValue) → JsonValue
  | arr : List JsonValue → JsonValue

/-- Association-list lookup inside a configuration object. -/
def jsonFieldLookup : List (String × JsonValue) → String → Option JsonValue
  | [], _ => none
  | (k, v) :: rest, key => if k = key then some v else jsonFieldLookup rest key

/-- The value stored at a top-level key of a configuration document (`none`
when the document is not an object or lacks the key). -/
def JsonValue.lookupKey : JsonValue → String → Option JsonValue
  | .obj fields, key => jsonFieldLookup fields key
  | _, _ => none

/-- Modelled from the spec: the error type with which the factory rejects an
invalid or incomplete configuration document; it must identify the offending
key and the reason. -/
structure ConfigurationError where
  key : String
  reason : String
deriving DecidableEq

/-- Modelled from the spec: the architecture tags the factory's dispatch
recognizes (fully-fused MLPs and CUTLASS-backed pipelines are the
architectures the spec names). -/
def knownArchitectures : List String := ["FullyFusedMLP", "CutlassMLP"]

/-- Modelled from the spec: the hyperparameters a recognized architecture
requires (the spec's construction scenario names exactly these). -/
def requiredHyperparameters : List String :=
  ["n_input_dims", "n_output_dims", "n_neurons", "n_hidden_layers"]

/-- Modelled from the spec: a hyperparameter value is valid when it is a
positive number (layer widths and counts must be positive). -/
def hyperValueValid : JsonValue → Bool
  | .num n => decide (0 < n)
  | _ => false

/-- Modelled from the spec: scan the required hyperparameters in order and
report the first missing or invalid one as a `ConfigurationError` naming the
offending key. -/
def checkHyperparams (config : JsonValue) : List String → Option ConfigurationError
  | [] => none
  | key :: rest =>
    match config.lookupKey key with
    | none => some ⟨key, "missing required hyperparameter"⟩
    | some v =>
      if hyperValueValid v then checkHyperparams config rest
      else some ⟨key, "invalid hyperparameter value"⟩

/-- Modelled from the spec: the factory's validation pass — fail closed on a
missing, non-string or unrecognized architecture tag, then on the first
missing or invalid required hyperparameter. -/
def firstConfigError (config : JsonValue) : Option ConfigurationError :=
  match config.lookupKey "otype" with
  | none => some ⟨"otype", "missing architecture tag"⟩
  | some (.str tag) =>
    if knownArchitectures.contains tag then checkHyperparams config requiredHyperparameters
    else some ⟨"otype", "unrecognized architecture tag"⟩
  | some _ => some ⟨"otype", "architecture tag must be a string"⟩

/-- The numeric value of a hyperparameter, as a `Nat` (0 when absent; only
used after validation has succeeded). -/
def hyperNat (config : JsonValue) (key : String) : Nat :=
  match config.lookupKey key with
  | some (.num n) => n.toNat
  | _ => 0

/-- Modelled from the spec: `create_network` is declared in `network.h`
(lines 55-56) but its implementation is not in the source tree.  Per spec
section 4.2 it validates the configuration document before any accelerator
resource is allocated (`alloc` counts accelerator allocations): on error the
allocation count is unchanged and no instance is returned; on success the
selected constructor allocates and returns a fully initialized instance. -/
def create_network (T : Type) [Inhabited T] (config : JsonValue) (alloc : Nat) :
    Except ConfigurationError (Network T) × Nat :=
  match firstConfigError config with
  | some e => (.error e, alloc)
  | none =>
    (.ok { params := [], grads := [],
           n_input_dims := hyperNat config "n_input_dims",
           n_output_dims := hyperNat config "n_output_dims",
           scratchPerCall := 0,
           eval := fun _ _ => default }, alloc + 1)

/-- A concrete one-input, one-output network used to exercise the interface
on explicit data. -/
def exampleNet : Network Int :=
  { params := [], grads := [], n_input_dims := 1, n_output_dims := 1, scratchPerCall := 0,
    eval := fun col _ => col 0 }

/-- A concrete call state for `exampleNet`: a 1×1 input holding 5 and a 1×1
output initially holding 0. -/
def exampleState : InferenceState Int :=
  { net := exampleNet, scratch := fun _ => 0,
    inputBuf := { rows := 1, cols := 1, data := fun _ => 5 },
    outputBuf := { rows := 1, cols := 1, data := fun _ => 0 } }

/-- The spec's negative-test configuration document:
`{"otype": "DoesNotExist"}`. -/
def badConfig : JsonValue := .obj [("otype", .str "DoesNotExist")]

/-- A store at position `k` is read back at `k`. -/
theorem updateBuf_self {T : Type} (buf : Nat → T) (k : Nat) (v : T) :
    updateBuf buf k v k = v := if_pos rfl

/-- A store at position `k` leaves every other position unchanged. -/
theorem updateBuf_other {T : Type} (buf : Nat → T) (k : Nat) (v : T) (x : Nat) (h : x ≠ k) :
    updateBuf buf k v x = buf x := if_neg h

/-- A position no store in the list targets retains its pre-existing value. -/
theorem foldl_updateBuf_not_mem {T : Type} (l : List (Nat × T)) (old : Nat → T) (k : Nat)
    (h : ∀ v, (k, v) ∉ l) :
    (l.foldl (fun buf kv => updateBuf buf kv.1 kv.2) old) k = old k := by
  induction l generalizing old with
  | nil => rfl
  | cons kv t ih =>
    simp only [List.foldl_cons]
    rw [ih _ fun v hv => h v (List.mem_cons_of_mem _ hv)]
    refine updateBuf_other old kv.1 kv.2 k fun hk => h kv.2 ?_
    rw [hk]
    exact List.mem_cons_self _ _

/-- When a position is targeted by some store in the list and every store
targeting it writes the same value, that value is what the position holds
after performing the whole list. -/
theorem foldl_updateBuf_mem {T : Type} (l : List (Nat × T)) (old : Nat → T) (k : Nat) (v : T)
    (hmem : (k, v) ∈ l) (huniq : ∀ v', (k, v') ∈ l → v' = v) :
    (l.foldl (fun buf kv => updateBuf buf kv.1 kv.2) old) k = v := by
  induction l generalizing old with
  | nil => cases hmem
  | cons kv t ih =>
    simp only [List.foldl_cons]
    by_cases htail : ∃ v'', (k, v'') ∈ t
    · obtain ⟨v'', hv''⟩ := htail
      have hv : v'' = v := huniq v'' (List.mem_cons_of_mem _ hv'')
      subst hv
      exact ih _ hv'' fun v' hv' => huniq v' (List.mem_cons_of_mem _ hv')
    · have hk : kv = (k, v) := by
        rcases List.mem_cons.mp hmem with h | h
        · exact h.symm
        · exact absurd ⟨v, h⟩ htail
      subst hk
      rw [foldl_updateBuf_not_mem t _ k fun v' hv' => htail ⟨v', hv'⟩]
      exact updateBuf_self old k v

/-- Membership in the list of stores of a layout write-out. -/
theorem mem_writeList {T : Type} (L : MatrixLayout) (rows cols : Nat) (vals : Nat → Nat → T)
    (k : Nat) (v : T) :
    (k, v) ∈ writeList L rows cols vals ↔
      ∃ i j, i < rows ∧ j < cols ∧ L.index rows cols i j = k ∧ vals i j = v := by
  simp only [writeList, List.mem_flatMap, List.mem_map, List.mem_range, Prod.mk.injEq]
  constructor
  · rintro ⟨i, hi, j, hj, hk, hv⟩
    exact ⟨i, j, hi, hj, hk, hv⟩
  · rintro ⟨i, j, hi, hj, hk, hv⟩
    exact ⟨i, hi, j, hj, hk, hv⟩

/-- The linear position of an in-range logical element is in range. -/
theorem MatrixLayout.index_lt (L : MatrixLayout) {rows cols i j : Nat}
    (hi : i < rows) (hj : j < cols) : L.index rows cols i j < rows * cols := by
  cases L with
  | RowMajor =>
    calc i * cols + j < i * cols + cols := Nat.add_lt_add_left hj _
      _ = (i + 1) * cols := (Nat.succ_mul i cols).symm
      _ ≤ rows * cols := Nat.mul_le_mul_right cols hi
  | ColumnMajor =>
    calc j * rows + i < j * rows + rows := Nat.add_lt_add_left hi _
      _ = (j + 1) * rows := (Nat.succ_mul j rows).symm
      _ ≤ cols * rows := Nat.mul_le_mul_right rows hj
      _ = rows * cols := Nat.mul_comm cols rows

/-- Reading the coordinates back from the linear position of an in-range
logical element recovers that element. -/
theorem MatrixLayout.coords_index (L : MatrixLayout) {rows cols i j : Nat}
    (hi : i < rows) (hj : j < cols) :
    L.coords rows cols (L.index rows cols i j) = (i, j) := by
  cases L with
  | RowMajor =>
    show ((i * cols + j) / cols, (i * cols + j) % cols) = (i, j)
    rw [Nat.add_comm (i * cols) j, Nat.add_mul_div_right j i (Nat.lt_of_le_of_lt (Nat.zero_le j) hj),
      Nat.div_eq_of_lt hj, Nat.add_mul_mod_self_right, Nat.mod_eq_of_lt hj, Nat.zero_add]
  | ColumnMajor =>
    show ((j * rows + i) % rows, (j * rows + i) / rows) = (i, j)
    rw [Nat.add_comm (j * rows) i, Nat.add_mul_div_right i j (Nat.lt_of_le_of_lt (Nat.zero_le i) hi),
      Nat.div_eq_of_lt hi, Nat.add_mul_mod_self_right, Nat.mod_eq_of_lt hi, Nat.zero_add]

/-- Both matrix dimensions are positive when some linear position is in
range. -/
theorem dims_pos_of_lt {rows cols k : Nat} (hk : k < rows * cols) : 0 < rows ∧ 0 < cols := by
  constructor
  · rcases Nat.eq_zero_or_pos rows with h | h
    · subst h; rw [Nat.zero_mul] at hk; exact absurd hk (Nat.not_lt_zero k)
    · exact h
  · rcases Nat.eq_zero_or_pos cols with h | h
    · subst h; rw [Nat.mul_zero] at hk; exact absurd hk (Nat.not_lt_zero k)
    · exact h

/-- The coordinates of an in-range linear position are in range. -/
theorem MatrixLayout.coords_lt (L : MatrixLayout) {rows cols k : Nat}
    (hk : k < rows * cols) :
    (L.coords rows cols k).1 < rows ∧ (L.coords rows cols k).2 < cols := by
  obtain ⟨hr, hc⟩ := dims_pos_of_lt hk
  cases L with
  | RowMajor =>
    exact ⟨(Nat.div_lt_iff_lt_mul hc).mpr hk, Nat.mod_lt k hc⟩
  | ColumnMajor =>
    exact ⟨Nat.mod_lt k hr, (Nat.div_lt_iff_lt_mul hr).mpr (Nat.mul_comm rows cols ▸ hk)⟩

/-- The linear position of the coordinates stored at an in-range position is
that position itself. -/
theorem MatrixLayout.index_coords (L : MatrixLayout) {rows cols k : Nat}
    (_hk : k < rows * cols) :
    L.index rows cols (L.coords rows cols k).1 (L.coords rows cols k).2 = k := by
  cases L with
  | RowMajor =>
    show k / cols * cols + k % cols = k
    rw [Nat.mul_comm (k / cols) cols]
    exact Nat.div_add_mod k cols
  | ColumnMajor =>
    show k / rows * rows + k % rows = k
    rw [Nat.mul_comm (k / rows) rows]
    exact Nat.div_add_mod k rows

/-- Full characterization of a layout write-out: every in-range linear
position holds the freshly computed value for its coordinates, independent
of the buffer's pre-existing contents. -/
theorem storeAll_eq {T : Type} (L : MatrixLayout) (rows cols : Nat) (vals : Nat → Nat → T)
    (old : Nat → T) (k : Nat) (hk : k < rows * cols) :
    storeAll L rows cols vals old k =
      vals (L.coords rows cols k).1 (L.coords rows cols k).2 := by
  apply foldl_updateBuf_mem
  · exact (mem_writeList L rows cols vals k _).mpr
      ⟨(L.coords rows cols k).1, (L.coords rows cols k).2,
        (L.coords_lt hk).1, (L.coords_lt hk).2, L.index_coords hk, rfl⟩
  · intro v' hv'
    obtain ⟨i, j, hi, hj, hidx, hval⟩ := (mem_writeList L rows cols vals k v').mp hv'
    have hco : L.coords rows cols k = (i, j) := by rw [← hidx]; exact L.coords_index hi hj
    rw [← hval, hco]

/-- When some required hyperparameter is missing or invalid in the
configuration document, the validation scan reports an error. -/
theorem checkHyperparams_some_of_bad (config : JsonValue) (keys : List String) (key : String)
    (hmemk : key ∈ keys)
    (hbad : config.lookupKey key = none ∨
      ∃ v, config.lookupKey key = some v ∧ hyperValueValid v = false) :
    ∃ e : ConfigurationError, checkHyperparams config keys = some e := by
  induction keys with
  | nil => cases hmemk
  | cons k rest ih =>
    rcases hcase : config.lookupKey k with _ | v
    · exact ⟨⟨k, "missing required hyperparameter"⟩, by simp [checkHyperparams, hcase]⟩
    · cases hval : hyperValueValid v with
      | false =>
        exact ⟨⟨k, "invalid hyperparameter value"⟩, by simp [checkHyperparams, hcase, hval]⟩
      | true =>
        have hne : key ≠ k := by
          rintro rfl
          rcases hbad with hb | ⟨v', hv', hbadval⟩
          · rw [hcase] at hb; cases hb
          · rw [hcase] at hv'
            cases Option.some.inj hv'
            rw [hval] at hbadval; cases hbadval
        have hmem' : key ∈ rest := by
          rcases List.mem_cons.mp hmemk with h | h
          · exact absurd h hne
          · exact h
        obtain ⟨e, he⟩ := ih hmem'
        exact ⟨e, by simp [checkHyperparams, hcase, hval, he]⟩

/-- Claim C1: for every input/output pair whose declared dimensions match
the network's declared input/output widths and share a batch size, a call
to `inference_mixed_precision` writes every element of the output buffer —
each linear position holds the network's freshly computed value for that
position's coordinates under the requested layout, independent of the
buffer's pre-call contents — for every requested output layout. -/
theorem inference_mixed_precision_overwrites_output {T : Type} (s : InferenceState T)
    (stream : Nat) (output_layout : MatrixLayout)
    (_hin : s.inputBuf.rows = s.net.n_input_dims)
    (_hout : s.outputBuf.rows = s.net.n_output_dims)
    (_hbatch : s.inputBuf.cols = s.outputBuf.cols)
    (k : Nat) (hk : k < s.outputBuf.rows * s.outputBuf.cols) :
    (inference_mixed_precision s stream output_layout).outputBuf.data k =
      s.net.eval
        (fun r => s.inputBuf.data
          (MatrixLayout.index .ColumnMajor s.inputBuf.rows s.inputBuf.cols r
            (output_layout.coords s.outputBuf.rows s.outputBuf.cols k).2))
        (output_layout.coords s.outputBuf.rows s.outputBuf.cols k).1 :=
  storeAll_eq output_layout s.outputBuf.rows s.outputBuf.cols _ s.outputBuf.data k hk

/-- Witness for C1: the concrete 1×1 call state, with RowMajor requested. -/
theorem inference_mixed_precision_overwrites_output_witness :
    exampleState.inputBuf.rows = exampleState.net.n_input_dims ∧
    exampleState.outputBuf.rows = exampleState.net.n_output_dims ∧
    exampleState.inputBuf.cols = exampleState.outputBuf.cols ∧
    0 < exampleState.outputBuf.rows * exampleState.outputBuf.cols ∧
    (inference_mixed_precision exampleState 0 MatrixLayout.RowMajor).outputBuf.data 0 =
      exampleState.net.eval
        (fun r => exampleState.inputBuf.data
          (MatrixLayout.index .ColumnMajor exampleState.inputBuf.rows exampleState.inputBuf.cols r
            (MatrixLayout.coords .RowMajor exampleState.outputBuf.rows exampleState.outputBuf.cols 0).2))
        (MatrixLayout.coords .RowMajor exampleState.outputBuf.rows exampleState.outputBuf.cols 0).1 :=
  ⟨rfl, rfl, rfl, by decide,
    inference_mixed_precision_overwrites_output exampleState 0 MatrixLayout.RowMajor
      rfl rfl rfl 0 (by decide)⟩

/-- Claim C2: `Network<T>` specializes the inherited differentiable
capability as `DifferentiableObject<T, T>` — its parameter/gradient element
type and its compute element type are the same type `T`, so no separate
wider caller-visible storage type exists at this interface. -/
theorem network_compute_and_params_types_agree :
    ∀ T : Type, networkParamsT T = networkComputeT T ∧ networkComputeT T = T :=
  fun _ => ⟨rfl, rfl⟩

/-- Claim C3: for every configuration document with an unrecognized (or
missing, or non-string) architecture tag, a missing required
hyperparameter, or an invalid hyperparameter value, `create_network` fails
with a `ConfigurationError` (a key/reason pair) and the accelerator
allocation count is unchanged, so no partially constructed instance
remains. -/
theorem create_network_fails_closed_on_invalid_config (T : Type) [Inhabited T]
    (config : JsonValue) (alloc : Nat)
    (hbad :
      (∀ tag : String, config.lookupKey "otype" = some (JsonValue.str tag) →
        knownArchitectures.contains tag = false)
      ∨ (∃ key ∈ requiredHyperparameters, config.lookupKey key = none)
      ∨ (∃ key ∈ requiredHyperparameters,
          ∃ v, config.lookupKey key = some v ∧ hyperValueValid v = false)) :
    ∃ e : ConfigurationError, create_network T config alloc = (Except.error e, alloc) := by
  suffices h : ∃ e, firstConfigError config = some e by
    obtain ⟨e, he⟩ := h
    exact ⟨e, by simp [create_network, he]⟩
  rcases hcase : config.lookupKey "otype" with _ | v
  · exact ⟨⟨"otype", "missing architecture tag"⟩, by simp [firstConfigError, hcase]⟩
  · cases v with
    | str tag =>
      cases hcont : knownArchitectures.contains tag with
      | false =>
        have hnotmem : tag ∉ knownArchitectures := by
          have h := hcont; simp at h; exact h
        exact ⟨⟨"otype", "unrecognized architecture tag"⟩,
          by simp [firstConfigError, hcase, hnotmem]⟩
      | true =>
        have hmem : tag ∈ knownArchitectures := by
          have h := hcont; simp at h; exact h
        rcases hbad with h1 | h2 | h3
        · rw [h1 tag hcase] at hcont; exact Bool.noConfusion hcont
        · obtain ⟨key, hmemk, hnone⟩ := h2
          obtain ⟨e, he⟩ :=
            checkHyperparams_some_of_bad config requiredHyperparameters key hmemk (Or.inl hnone)
          exact ⟨e, by simp [firstConfigError, hcase, hmem, he]⟩
        · obtain ⟨key, hmemk, v, hv, hbadv⟩ := h3
          obtain ⟨e, he⟩ :=
            checkHyperparams_some_of_bad config requiredHyperparameters key hmemk
              (Or.inr ⟨v, hv, hbadv⟩)
          exact ⟨e, by simp [firstConfigError, hcase, hmem, he]⟩
    | num n => exact ⟨⟨"otype", "architecture tag must be a string"⟩,
        by simp [firstConfigError, hcase]⟩
    | boolean b => exact ⟨⟨"otype", "architecture tag must be a string"⟩,
        by simp [firstConfigError, hcase]⟩
    | obj fields => exact ⟨⟨"otype", "architecture tag must be a string"⟩,
        by simp [firstConfigError, hcase]⟩
    | arr items => exact ⟨⟨"otype", "architecture tag must be a string"⟩,
        by simp [firstConfigError, hcase]⟩

/-- Witness for C3: the spec's negative test `{"otype": "DoesNotExist"}`
fails the factory and leaves the allocation count unchanged. -/
theorem create_network_fails_closed_on_invalid_config_witness :
    ∃ e : ConfigurationError, create_network Int badConfig 7 = (Except.error e, 7) :=
  create_network_fails_closed_on_invalid_config Int badConfig 7
    (Or.inl fun tag htag => by
      have h0 : badConfig.lookupKey "otype" = some (JsonValue.str "DoesNotExist") := rfl
      rw [h0] at htag
      cases Option.some.inj htag
      decide)

/-- Claim C4: no call to `inference_mixed_precision` mutates the parameter
state or the gradient state of the network instance — indeed the whole
instance is untouched; only the output buffer and the scratch pool
change. -/
theorem inference_mixed_precision_preserves_params_and_grads {T : Type} (s : InferenceState T)
    (stream : Nat) (output_layout : MatrixLayout) :
    (inference_mixed_precision s stream output_layout).net.params = s.net.params ∧
    (inference_mixed_precision s stream output_layout).net.grads = s.net.grads ∧
    (inference_mixed_precision s stream output_layout).net = s.net :=
  ⟨rfl, rfl, rfl⟩

/-- Claim C5: calling `cutlass_free_workspace` twice in succession on the
same stream makes the second call a no-op (the pool is unchanged by it),
and already after the first call no scratch memory remains attributed to
that stream. -/
theorem cutlass_free_workspace_idempotent_and_clears (pool : Nat → Nat) (stream : Nat) :
    cutlass_free_workspace (cutlass_free_workspace pool stream) stream =
      cutlass_free_workspace pool stream ∧
    cutlass_free_workspace pool stream stream = 0 := by
  constructor
  · funext str
    by_cases h : str = stream <;> simp [cutlass_free_workspace, h]
  · simp [cutlass_free_workspace]

/-- Claim C6: `WeightUsage` is a closed enumeration with exactly the three
pairwise distinct values Inference, Forward and Backward, and every
`WeightUsage` value is one of them. -/
theorem weightUsage_exactly_three_values :
    (∀ w : WeightUsage,
      w = WeightUsage.Inference ∨ w = WeightUsage.Forward ∨ w = WeightUsage.Backward) ∧
    WeightUsage.Inference ≠ WeightUsage.Forward ∧
    WeightUsage.Inference ≠ WeightUsage.Backward ∧
    WeightUsage.Forward ≠ WeightUsage.Backward :=
  ⟨fun w => by
    cases w with
    | Inference => exact Or.inl rfl
    | Forward => exact Or.inr (Or.inl rfl)
    | Backward => exact Or.inr (Or.inr rfl),
   by decide, by decide, by decide⟩

/-- Claim C7: the `output_layout` parameter of `inference_mixed_precision`
defaults to ColumnMajor when the caller omits it; the layout type offers
exactly ColumnMajor and RowMajor, so RowMajor may be requested instead;
and the input buffer's static layout tag is ColumnMajor (the declaration
accepts input only at type `GPUMatrix<T, ColumnMajor>`). -/
theorem inference_output_layout_defaults_columnMajor :
    (∀ (T : Type) (s : InferenceState T) (stream : Nat),
      inference_mixed_precision_defaulted s stream =
        inference_mixed_precision s stream MatrixLayout.ColumnMajor) ∧
    (∀ (T : Type) (s : InferenceState T), s.inputBuf.layoutTag = MatrixLayout.ColumnMajor) ∧
    (∀ L : MatrixLayout, L = MatrixLayout.ColumnMajor ∨ L = MatrixLayout.RowMajor) :=
  ⟨fun _ _ _ => rfl, fun _ _ => rfl, fun L => by
    cases L with
    | RowMajor => exact Or.inr rfl
    | ColumnMajor => exact Or.inl rfl⟩

/-- Claim C8: the state of a `Network` instance consists exactly of its
inherited differentiable-object storage and the architecture description
(dimensions, scratch consumption, evaluation map) — two instances agreeing
on these are equal, so no member of the type stores a `WeightUsage` value
across calls. -/
theorem network_holds_no_weightUsage_state {T : Type} (n m : Network T)
    (hdiff : n.toDifferentiableObject = m.toDifferentiableObject)
    (hin : n.n_input_dims = m.n_input_dims)
    (hout : n.n_output_dims = m.n_output_dims)
    (hscratch : n.scratchPerCall = m.scratchPerCall)
    (heval : n.eval = m.eval) : n = m := by
  cases n; cases m
  simp_all

/-- Witness for C8 at a concrete pair of networks with equal components. -/
theorem network_holds_no_weightUsage_state_witness :
    exampleNet.toDifferentiableObject = exampleNet.toDifferentiableObject ∧
    exampleNet.n_input_dims = exampleNet.n_input_dims ∧
    exampleNet.n_output_dims = exampleNet.n_output_dims ∧
    exampleNet.scratchPerCall = exampleNet.scratchPerCall ∧
    exampleNet.eval = exampleNet.eval ∧
    exampleNet = exampleNet :=
  ⟨rfl, rfl, rfl, rfl, rfl,
    network_holds_no_weightUsage_state exampleNet exampleNet rfl rfl rfl rfl rfl⟩

/-- Claim C9: for every call, the output buffer's static matrix type is
fixed at ColumnMajor layout regardless of the requested `output_layout`
argument — a RowMajor result is conveyed only through the runtime value,
never through the buffer's compile-time layout tag. -/
theorem inference_output_buffer_static_layout_columnMajor {T : Type} (s : InferenceState T)
    (stream : Nat) (output_layout : MatrixLayout) :
    (inference_mixed_precision s stream output_layout).outputBuf.layoutTag =
      MatrixLayout.ColumnMajor := rfl

/-- Claim C10: no call to `inference_mixed_precision` changes the contents
of the input buffer (received as an immutable reference in the
declaration). -/
theorem inference_mixed_precision_preserves_input_buffer {T : Type} (s : InferenceState T)
    (stream : Nat) (output_layout : MatrixLayout) :
    (inference_mixed_precision s stream output_layout).inputBuf = s.inputBuf := rfl

end TcnnSpec
